import Mathlib

/-!
Verification of the AI-Resume-Regenerator core logic
(`hr_resume_converter_groq.py`) against its natural-language design
specification.

The Python functions are modelled shallowly:

* Python strings are Lean `String`s; `str.strip`, `str.lower`, `str.upper`,
  `str.split`, `"x" in s`, `str.join`, `str.replace`, `str.startswith` are
  modelled character-list-wise (`pyStrip`, `pyLower`, ...), restricted to the
  ASCII behaviour these inputs exercise.
* The parser dictionary is an ordered association list (`Dict`), with
  `data[k] = v` as `dictSet` and `data[k]` as `dictGet`; a lookup or
  `split(":", 1)[1]` that would raise in Python is an `Option` failure, so
  "never raises" is "always returns `some`".
* External collaborators (pdfplumber, python-docx, docx2pdf) are abstracted
  as explicit outcome values fed to the functions that call them.
-/

/-! ## Python string primitives -/

/-- The whitespace characters stripped by Python `str.strip()` (ASCII range). -/
def isPyWs (c : Char) : Bool :=
  c == ' ' || c == '\t' || c == '\n' || c == '\r' || c == '\x0b' || c == '\x0c'

/-- Drop leading Python whitespace from a character list. -/
def dropWs (l : List Char) : List Char := l.dropWhile isPyWs

/-- Strip Python whitespace from both ends of a character list. -/
def stripL (l : List Char) : List Char := (dropWs ((dropWs l).reverse)).reverse

/-- Python `s.strip()`. -/
def pyStrip (s : String) : String := String.mk (stripL s.data)

/-- Python `str.lower()` on one character (ASCII letters). -/
def pyLowerChar (c : Char) : Char :=
  match c with
  | 'A' => 'a' | 'B' => 'b' | 'C' => 'c' | 'D' => 'd' | 'E' => 'e' | 'F' => 'f'
  | 'G' => 'g' | 'H' => 'h' | 'I' => 'i' | 'J' => 'j' | 'K' => 'k' | 'L' => 'l'
  | 'M' => 'm' | 'N' => 'n' | 'O' => 'o' | 'P' => 'p' | 'Q' => 'q' | 'R' => 'r'
  | 'S' => 's' | 'T' => 't' | 'U' => 'u' | 'V' => 'v' | 'W' => 'w' | 'X' => 'x'
  | 'Y' => 'y' | 'Z' => 'z'
  | c => c

/-- Python `s.lower()`. -/
def pyLower (s : String) : String := String.mk (s.data.map pyLowerChar)

/-- Python `str.upper()` on one character (ASCII letters). -/
def pyUpperChar (c : Char) : Char :=
  match c with
  | 'a' => 'A' | 'b' => 'B' | 'c' => 'C' | 'd' => 'D' | 'e' => 'E' | 'f' => 'F'
  | 'g' => 'G' | 'h' => 'H' | 'i' => 'I' | 'j' => 'J' | 'k' => 'K' | 'l' => 'L'
  | 'm' => 'M' | 'n' => 'N' | 'o' => 'O' | 'p' => 'P' | 'q' => 'Q' | 'r' => 'R'
  | 's' => 'S' | 't' => 'T' | 'u' => 'U' | 'v' => 'V' | 'w' => 'W' | 'x' => 'X'
  | 'y' => 'Y' | 'z' => 'Z'
  | c => c

/-- Python `s.upper()`. -/
def pyUpper (s : String) : String := String.mk (s.data.map pyUpperChar)

/-- Substring occurrence test on character lists (Python `pat in s`). -/
def infixOf (pat : List Char) : List Char → Bool
  | [] => pat.isEmpty
  | c :: cs => pat.isPrefixOf (c :: cs) || infixOf pat cs

/-- Python `pat in s` for strings. -/
def strContains (s pat : String) : Bool := infixOf pat.data s.data

/-- Everything after the first `':'`, or `none` when there is no colon. -/
def afterColonAux : List Char → Option (List Char)
  | [] => none
  | c :: cs => if c = ':' then some cs else afterColonAux cs

/-- Python `s.split(":", 1)[1]`: `none` models the `IndexError` raised when
the line has no colon. -/
def afterFirstColon (s : String) : Option String :=
  (afterColonAux s.data).map String.mk

/-- Split a character list at every `'\n'` (Python `str.split("\n")`). -/
def splitOnNl : List Char → List (List Char)
  | [] => [[]]
  | c :: cs =>
    if c = '\n' then [] :: splitOnNl cs
    else
      match splitOnNl cs with
      | [] => [[c]]
      | r :: rs => (c :: r) :: rs

/-- Python `text.split("\n")`. -/
def pySplitLines (s : String) : List String := (splitOnNl s.data).map String.mk

/-- Python `sep.join(parts)`. -/
def pyJoin (sep : String) : List String → String
  | [] => ""
  | x :: xs => xs.foldl (fun acc y => acc ++ sep ++ y) x

/-- Join a list of strings with a separator, with no leading or trailing
separator (used on the specification side of refinement statements). -/
def joinSep (sep : String) : List String → String
  | [] => ""
  | [x] => x
  | x :: xs => x ++ sep ++ joinSep sep xs

/-- Concatenation of the given strings, each followed by one newline
(the shape of the parser's section accumulator). -/
def joinNlS : List String → String
  | [] => ""
  | x :: xs => x ++ "\n" ++ joinNlS xs

/-! ## The parser dictionary (`parse_ai_response`'s `data` dict) -/

/-- A Python dict with string keys and values, as an ordered association
list (insertion order, no duplicate keys in use). -/
abbrev Dict := List (String × String)

/-- Python `data[key]`; `none` models a `KeyError`. -/
def dictGet : Dict → String → Option String
  | [], _ => none
  | (k, v) :: rest, key => if k = key then some v else dictGet rest key

/-- Python `data[key] = val`: update in place if present, append otherwise. -/
def dictSet : Dict → String → String → Dict
  | [], key, val => [(key, val)]
  | (k, v) :: rest, key, val =>
    if k = key then (k, val) :: rest else (k, v) :: dictSet rest key val

/-- The ten field names, in the insertion order of the source's `data` dict. -/
def fieldNames : List String :=
  ["Full Name", "Professional Title", "Email", "Phone", "Location",
   "Profile Summary", "Professional Experience", "Project Experience",
   "Technical Skills", "Soft Skills"]

/-- The five identity field names, in the order their patterns are checked. -/
def idNames : List String :=
  ["Full Name", "Professional Title", "Email", "Phone", "Location"]

/-- The five section field names, in the order their patterns are checked. -/
def secNames : List String :=
  ["Profile Summary", "Professional Experience", "Project Experience",
   "Technical Skills", "Soft Skills"]

/-- The initial `data` dictionary of `parse_ai_response`. -/
def initData : Dict :=
  [("Full Name", ""), ("Professional Title", ""), ("Email", ""),
   ("Phone", ""), ("Location", ""),
   ("Profile Summary", ""), ("Professional Experience", ""),
   ("Project Experience", ""), ("Technical Skills", ""), ("Soft Skills", "")]

/-! ## `parse_ai_response` -/

/-- One iteration of `parse_ai_response`'s `for line in text.split("\n")`
loop: strip the line, skip it if blank, otherwise check the five identity
patterns, then the five heading patterns, then append to the active section.
`none` models a raised exception. -/
def parseStep (rawLine : String) (data : Dict) (key : Option String) :
    Option (Dict × Option String) :=
  let line := pyStrip rawLine
  if line = "" then some (data, key)
  else
    let ll := pyLower line
    if strContains ll "full name:" then
      (afterFirstColon line).map (fun v => (dictSet data "Full Name" (pyStrip v), key))
    else if strContains ll "professional title:" then
      (afterFirstColon line).map (fun v => (dictSet data "Professional Title" (pyStrip v), key))
    else if strContains ll "email:" then
      (afterFirstColon line).map (fun v => (dictSet data "Email" (pyStrip v), key))
    else if strContains ll "phone:" then
      (afterFirstColon line).map (fun v => (dictSet data "Phone" (pyStrip v), key))
    else if strContains ll "location:" then
      (afterFirstColon line).map (fun v => (dictSet data "Location" (pyStrip v), key))
    else if strContains ll "profile summary:" then some (data, some "Profile Summary")
    else if strContains ll "professional experience:" then some (data, some "Professional Experience")
    else if strContains ll "project experience:" then some (data, some "Project Experience")
    else if strContains ll "technical skills:" then some (data, some "Technical Skills")
    else if strContains ll "soft skills:" then some (data, some "Soft Skills")
    else
      match key with
      | some k => (dictGet data k).map (fun cur => (dictSet data k (cur ++ line ++ "\n"), key))
      | none => some (data, key)

/-- The whole line loop of `parse_ai_response`. -/
def parseLines : List String → Dict → Option String → Option Dict
  | [], data, _ => some data
  | l :: ls, data, key =>
    match parseStep l data key with
    | some (d, k) => parseLines ls d k
    | none => none

/-- `parse_ai_response(text)`: run the line loop on `text.split("\n")` from
the initial dictionary, then strip every value
(`{k: v.strip() for k, v in data.items()}`). -/
def parse_ai_response (text : String) : Option Dict :=
  (parseLines (pySplitLines text) initData none).map
    (List.map (fun p => (p.1, pyStrip p.2)))

/-! ## Specification-side description of the parser

These definitions follow the wording of spec §4.2 (single forward pass,
identity patterns checked before heading patterns, active section,
accumulated lines newline-joined).  They are compared with the code-side
`parse_ai_response` in the refinement theorems below. -/

/-- The identity field named by the first identity pattern contained in the
(lowercased, stripped) line, in the fixed check order. -/
def firstIdMatch (ll : String) : Option String :=
  if strContains ll "full name:" then some "Full Name"
  else if strContains ll "professional title:" then some "Professional Title"
  else if strContains ll "email:" then some "Email"
  else if strContains ll "phone:" then some "Phone"
  else if strContains ll "location:" then some "Location"
  else none

/-- The section field named by the first heading pattern contained in the
(lowercased, stripped) line, in the fixed check order. -/
def firstSecMatch (ll : String) : Option String :=
  if strContains ll "profile summary:" then some "Profile Summary"
  else if strContains ll "professional experience:" then some "Professional Experience"
  else if strContains ll "project experience:" then some "Project Experience"
  else if strContains ll "technical skills:" then some "Technical Skills"
  else if strContains ll "soft skills:" then some "Soft Skills"
  else none

/-- The active section after one line: a blank or identity line leaves it
unchanged, a heading line switches to that heading's field. -/
def specKeyAfter (l : String) (key : Option String) : Option String :=
  let s := pyStrip l
  if s = "" then key
  else
    let ll := pyLower s
    if (firstIdMatch ll).isSome then key
    else
      match firstSecMatch ll with
      | some k => some k
      | none => key

/-- The lines (trimmed) this one line contributes to section `t`: nothing
unless the line is non-blank, matches no identity or heading pattern, and
section `t` is active. -/
def specContribs (t : String) (l : String) (key : Option String) : List String :=
  let s := pyStrip l
  if s = "" then []
  else
    let ll := pyLower s
    if (firstIdMatch ll).isSome then []
    else if (firstSecMatch ll).isSome then []
    else if key = some t then [s] else []

/-- All lines accumulated into section `t` over a list of input lines,
in source order. -/
def specCollect (t : String) : List String → Option String → List String
  | [], _ => []
  | l :: ls, key => specContribs t l key ++ specCollect t ls (specKeyAfter l key)

/-- The value an identity line stores: the text after its first colon,
trimmed (empty when there is no colon, which cannot happen on a matching
line). -/
def specIdVal (l : String) : String :=
  match afterFirstColon (pyStrip l) with
  | some v => pyStrip v
  | none => ""

/-- The value of identity field `n` coming from the last line that the
parser resolves to `n` (first matching pattern in check order), if any. -/
def specLastId (n : String) : List String → Option String
  | [] => none
  | l :: ls =>
    match specLastId n ls with
    | some w => some w
    | none =>
      if firstIdMatch (pyLower (pyStrip l)) = some n then some (specIdVal l) else none

/-! ## `extract_text`

The external readers (pdfplumber, python-docx) are abstracted as an
explicit event list: `page.extract_text()` either returns text, returns
`None`, or raises; opening the file can fail outright. -/

/-- Outcome of `page.extract_text()` for one PDF page. -/
inductive PageEv
  | text (s : String)
  | none
  | err
deriving DecidableEq

/-- The input to `extract_text`, with external-collaborator outcomes made
explicit. -/
inductive Source
  | pdfOpenFail
  | pdf (pages : List PageEv)
  | docx (paras : List String)
  | docxFail
deriving DecidableEq

/-- The page loop of `extract_text`: accumulate `(page.extract_text() or
"") + "\n"` until the pages are exhausted or a page raises; the `Bool`
records whether an exception was caught. -/
def runPages : List PageEv → String → String × Bool
  | [], acc => (acc, false)
  | PageEv.text s :: rest, acc => runPages rest (acc ++ s ++ "\n")
  | PageEv.none :: rest, acc => runPages rest (acc ++ "" ++ "\n")
  | PageEv.err :: _, acc => (acc, true)

/-- `extract_text(path)`: PDF pages are concatenated with newlines, a DOCX
is the newline-join of its paragraphs, any caught exception leaves `text`
as accumulated so far, and the result is stripped. -/
def extract_text : Source → String
  | Source.pdfOpenFail => pyStrip ""
  | Source.pdf pages => pyStrip (runPages pages "").1
  | Source.docx paras => pyStrip (pyJoin "\n" paras)
  | Source.docxFail => pyStrip ""

/-- Whether `extract_text` caught an extraction failure on this source. -/
def extractionFails : Source → Bool
  | Source.pdfOpenFail => true
  | Source.pdf pages => (runPages pages "").2
  | Source.docx _ => false
  | Source.docxFail => true

/-- Specification-side: the page text accumulated strictly before the first
failing page. -/
def pagesPrefix : List PageEv → String
  | [] => ""
  | PageEv.text s :: rest => s ++ "\n" ++ pagesPrefix rest
  | PageEv.none :: rest => "\n" ++ pagesPrefix rest
  | PageEv.err :: _ => ""

/-! ## `safe_convert_to_pdf` and the artifact path -/

/-- Outcome of the external DOCX→PDF conversion collaborator. -/
inductive ConvOutcome
  | ok
  | fail
deriving DecidableEq

/-- `safe_convert_to_pdf(docx_path, pdf_path)`: the PDF path on success,
the original DOCX path when the conversion raised. -/
def safe_convert_to_pdf : ConvOutcome → String → String → String
  | ConvOutcome.ok, _, pdfPath => pdfPath
  | ConvOutcome.fail, docxPath, _ => docxPath

/-- Python `s.replace(pat, rep)` on character lists (all non-overlapping
occurrences, left to right), with explicit fuel so the recursion is
structural; every step consumes at least one character, so fuel equal to
the length of the list is enough. -/
def replaceAux (pat rep : List Char) : Nat → List Char → List Char
  | 0, l => l
  | _ + 1, [] => []
  | n + 1, c :: cs =>
    if pat.isPrefixOf (c :: cs) then rep ++ replaceAux pat rep n (cs.drop (pat.length - 1))
    else c :: replaceAux pat rep n cs

/-- Python `s.replace(pat, rep)`. -/
def pyReplace (s pat rep : String) : String :=
  String.mk (replaceAux pat.data rep.data s.data.length s.data)

/-- The last step of `create_resume`:
`return safe_convert_to_pdf(path, path.replace(".docx", ".pdf"))`. -/
def createResumeArtifact (o : ConvOutcome) (path : String) : String :=
  safe_convert_to_pdf o path (pyReplace path ".docx" ".pdf")

/-! ## `create_resume`'s document content

The document is modelled as the ordered list of paragraphs `create_resume`
adds, keeping each paragraph's text and whether it is styled as a bullet
item; purely visual attributes (fonts, colors, margins, the page border)
are not modelled. -/

/-- One paragraph of the generated document. -/
structure DocPara where
  text : String
  bullet : Bool
deriving DecidableEq

/-- The candidate record consumed by `create_resume` (the ten fields of the
parser dictionary). -/
structure CandidateRecord where
  fullName : String
  professionalTitle : String
  email : String
  phone : String
  location : String
  profileSummary : String
  professionalExperience : String
  projectExperience : String
  technicalSkills : String
  softSkills : String
deriving DecidableEq

/-- The label prefixes stripped from `Professional Title` by
`re.sub(r'^(PROFESSIONAL TITLE/DESIGNATION:|TITLE:|DESIGNATION:)\s*', ...)`:
one leading, case-insensitive alternative followed by greedy `\s*`. -/
def stripLabelPrefix (s : String) : String :=
  let cs := s.data
  let low := cs.map pyLowerChar
  if ("professional title/designation:".data).isPrefixOf low then
    String.mk (dropWs (cs.drop 31))
  else if ("title:".data).isPrefixOf low then
    String.mk (dropWs (cs.drop 6))
  else if ("designation:".data).isPrefixOf low then
    String.mk (dropWs (cs.drop 12))
  else s

/-- The name/title line: uppercased name, then `" – "` and the cleaned,
uppercased title when the latter is non-empty. -/
def displayLine (d : CandidateRecord) : String :=
  let name := pyUpper d.fullName
  let title := pyUpper (pyStrip (stripLabelPrefix d.professionalTitle))
  if title ≠ "" then name ++ " – " ++ title else name

/-- `[v for k, v in data.items() if k in ["Email", "Phone", "Location"] and v]`. -/
def contactParts (d : CandidateRecord) : List String :=
  [d.email, d.phone, d.location].filter (fun v => v ≠ "")

/-- The contact paragraph: emitted only when some contact part is non-empty,
with the parts joined by `" | "`. -/
def contactParas (d : CandidateRecord) : List DocPara :=
  match contactParts d with
  | [] => []
  | parts => [⟨pyJoin " | " parts, false⟩]

/-- `line.strip().startswith(("-", "•"))` for an already-stripped line. -/
def isBulletLine (s : String) : Bool :=
  match s.data with
  | c :: _ => c == '-' || c == '•'
  | [] => false

/-- One content section: nothing when the field is empty, else a heading
paragraph followed by one paragraph per non-blank line, bullet-styled when
the trimmed line starts with `-` or `•`. -/
def sectionParas (heading : String) (content : String) : List DocPara :=
  if content = "" then []
  else
    ⟨heading, false⟩ ::
      (pySplitLines content).filterMap (fun line =>
        if pyStrip line = "" then none
        else some ⟨pyStrip line, isBulletLine (pyStrip line)⟩)

/-- The logo paragraph: a picture run (no text) when a logo file exists,
else the bold `"KRIFY"` text mark. -/
def logoPara (logoFound : Bool) : DocPara :=
  if logoFound then ⟨"", false⟩ else ⟨"KRIFY", false⟩

/-- The full paragraph sequence of the document `create_resume` builds. -/
def createResumeParas (logoFound : Bool) (d : CandidateRecord) : List DocPara :=
  [logoPara logoFound, ⟨displayLine d, false⟩]
    ++ contactParas d
    ++ sectionParas "PROFILE SUMMARY" d.profileSummary
    ++ sectionParas "PROFESSIONAL EXPERIENCE" d.professionalExperience
    ++ sectionParas "PROJECT EXPERIENCE" d.projectExperience
    ++ sectionParas "TECHNICAL SKILLS" d.technicalSkills
    ++ sectionParas "SOFT SKILLS" d.softSkills
    ++ [⟨"", false⟩, ⟨"", false⟩,
        ⟨"Private and Confidential Document – Intended for authorized organizations only.", false⟩,
        ⟨"info@krify.com", false⟩]

/-! ## `convert_route`'s output filename stem -/

/-- Characters kept by `re.sub(r'[^a-zA-Z0-9]', '_', ...)`. -/
def isAsciiAlnum (c : Char) : Bool :=
  ('a' ≤ c && c ≤ 'z') || ('A' ≤ c && c ≤ 'Z') || ('0' ≤ c && c ≤ '9')

/-- `re.sub(r'[^a-zA-Z0-9]', '_', data["Full Name"])[:30] or "Candidate"`. -/
def safe_name (fullName : String) : String :=
  let t := (fullName.data.map (fun c => if isAsciiAlnum c then c else '_')).take 30
  if t.isEmpty then "Candidate" else String.mk t

/-! ## Dictionary lemmas -/

theorem dictGet_dictSet_self (d : Dict) (k v : String) :
    dictGet (dictSet d k v) k = some v := by
  induction d with
  | nil => simp [dictSet, dictGet]
  | cons p rest ih =>
    obtain ⟨a, b⟩ := p
    by_cases h : a = k
    · simp [dictSet, dictGet, h]
    · simp [dictSet, dictGet, h, ih]

theorem dictGet_dictSet_ne (d : Dict) (k k' v : String) (h : k' ≠ k) :
    dictGet (dictSet d k v) k' = dictGet d k' := by
  induction d with
  | nil =>
    simp only [dictSet, dictGet]
    rw [if_neg (fun hh : k = k' => h hh.symm)]
  | cons p rest ih =>
    obtain ⟨a, b⟩ := p
    by_cases ha : a = k
    · subst ha
      simp only [dictSet, if_pos rfl, dictGet]
      rw [if_neg (fun hh : a = k' => h hh.symm), if_neg (fun hh : a = k' => h hh.symm)]
    · simp [dictSet, dictGet, ha, ih]

theorem keys_dictSet (d : Dict) (k v : String) (h : k ∈ d.map Prod.fst) :
    (dictSet d k v).map Prod.fst = d.map Prod.fst := by
  induction d with
  | nil => simp at h
  | cons p rest ih =>
    obtain ⟨a, b⟩ := p
    by_cases ha : a = k
    · simp [dictSet, ha]
    · simp only [List.map_cons, List.mem_cons] at h
      rcases h with h | h

      · exact absurd h.symm ha
      · simp [dictSet, ha, ih h]

theorem dictGet_isSome (d : Dict) (k : String) (h : k ∈ d.map Prod.fst) :
    ∃ v, dictGet d k = some v := by
  induction d with
  | nil => simp at h
  | cons p rest ih =>
    obtain ⟨a, b⟩ := p
    by_cases ha : a = k
    · exact ⟨b, by simp [dictGet, ha]⟩
    · simp only [List.map_cons, List.mem_cons] at h
      rcases h with h | h
      · exact absurd h.symm ha
      · obtain ⟨v, hv⟩ := ih h
        exact ⟨v, by simp [dictGet, ha, hv]⟩

theorem dictGet_mapVal (d : Dict) (k : String) (f : String → String) :
    dictGet (d.map (fun p => (p.1, f p.2))) k = (dictGet d k).map f := by
  induction d with
  | nil => simp [dictGet]
  | cons p rest ih =>
    obtain ⟨a, b⟩ := p
    by_cases ha : a = k
    · simp [dictGet, ha]
    · simp [dictGet, ha, ih]

/-! ## Strip lemmas -/

theorem dropWs_dropWs (l : List Char) : dropWs (dropWs l) = dropWs l := by
  induction l with
  | nil => rfl
  | cons c cs ih =>
    by_cases h : isPyWs c
    · simp [dropWs, List.dropWhile_cons, h] at ih ⊢
      exact ih
    · simp [dropWs, List.dropWhile_cons, h]

theorem dropWs_head? (l : List Char) (a : Char) (h : (dropWs l).head? = some a) :
    isPyWs a = false := by
  induction l with
  | nil => simp [dropWs] at h
  | cons c cs ih =>
    by_cases hc : isPyWs c
    · rw [dropWs, List.dropWhile_cons, if_pos hc] at h
      exact ih h
    · rw [dropWs, List.dropWhile_cons, if_neg hc] at h
      simp at h
      subst h
      simpa using hc

theorem dropWs_of_head_not (l : List Char) (a : Char) (t : List Char)
    (hl : l = a :: t) (ha : isPyWs a = false) : dropWs l = l := by
  subst hl
  simp [dropWs, List.dropWhile_cons, ha]

theorem dropWs_stripL (l : List Char) : dropWs (stripL l) = stripL l := by
  rcases hz : stripL l with _ | ⟨a, t⟩
  · rfl
  · refine dropWs_of_head_not _ a t rfl ?_
    have hhead : (stripL l).head? = some a := by rw [hz]; rfl
    rw [stripL, List.head?_reverse] at hhead
    have hlast : ((dropWs l).reverse).getLast? = some a := by
      have hsplit := List.takeWhile_append_dropWhile isPyWs ((dropWs l).reverse)
      calc ((dropWs l).reverse).getLast?
          = (List.takeWhile isPyWs ((dropWs l).reverse)
              ++ List.dropWhile isPyWs ((dropWs l).reverse)).getLast? := by rw [hsplit]
        _ = (List.dropWhile isPyWs ((dropWs l).reverse)).getLast?.or
              (List.takeWhile isPyWs ((dropWs l).reverse)).getLast? := List.getLast?_append
        _ = (some a).or (List.takeWhile isPyWs ((dropWs l).reverse)).getLast? := by
              rw [show List.dropWhile isPyWs ((dropWs l).reverse)
                    = dropWs ((dropWs l).reverse) from rfl, hhead]
        _ = some a := Option.or_some
    rw [List.getLast?_reverse] at hlast
    exact dropWs_head? l a hlast

theorem dropWs_reverse_stripL (l : List Char) :
    dropWs (stripL l).reverse = (stripL l).reverse := by
  rw [stripL, List.reverse_reverse]
  exact dropWs_dropWs _

theorem stripL_stripL (l : List Char) : stripL (stripL l) = stripL l := by
  conv_lhs => rw [stripL]
  rw [dropWs_stripL, dropWs_reverse_stripL, List.reverse_reverse]

theorem pyStrip_pyStrip (s : String) : pyStrip (pyStrip s) = pyStrip s := by
  unfold pyStrip
  rw [show (String.mk (stripL s.data)).data = stripL s.data from rfl, stripL_stripL]

theorem pyStrip_data (s : String) : (pyStrip s).data = stripL s.data := rfl

theorem pyStrip_eq_self_iff (s : String) : pyStrip s = s ↔ stripL s.data = s.data := by
  constructor
  · intro h
    have := congrArg String.data h
    simpa [pyStrip_data] using this
  · intro h
    apply String.ext
    simpa [pyStrip_data] using h

/-! ## Colon lemmas: a line containing an identity or heading pattern
contains a colon, so `split(":", 1)[1]` cannot raise. -/

theorem pyLowerChar_colon (c : Char) (h : pyLowerChar c = ':') : c = ':' := by
  unfold pyLowerChar at h
  split at h
  all_goals first
    | exact h
    | exact absurd h (by decide)

theorem mem_of_isPrefixOf {l₁ l₂ : List Char} (h : l₁.isPrefixOf l₂ = true)
    {a : Char} (ha : a ∈ l₁) : a ∈ l₂ := by
  rw [List.isPrefixOf_iff_prefix] at h
  exact h.subset ha

theorem mem_of_infixOf {pat l : List Char} (h : infixOf pat l = true)
    {a : Char} (ha : a ∈ pat) : a ∈ l := by
  induction l with
  | nil =>
    unfold infixOf at h
    rw [List.isEmpty_iff] at h
    subst h
    cases ha
  | cons c cs ih =>
    unfold infixOf at h
    rw [Bool.or_eq_true] at h
    rcases h with h | h
    · exact mem_of_isPrefixOf h ha
    · exact List.mem_cons_of_mem c (ih h)

theorem afterColonAux_isSome (l : List Char) (h : ':' ∈ l) :
    ∃ r, afterColonAux l = some r := by
  induction l with
  | nil => cases h
  | cons c cs ih =>
    by_cases hc : c = ':'
    · exact ⟨cs, by simp [afterColonAux, hc]⟩
    · rcases List.mem_cons.mp h with h | h
      · exact absurd h.symm hc
      · obtain ⟨r, hr⟩ := ih h
        exact ⟨r, by simp [afterColonAux, hc, hr]⟩

theorem afterFirstColon_of_contains (s pat : String)
    (h : strContains (pyLower s) pat = true) (hc : ':' ∈ pat.data) :
    ∃ v, afterFirstColon s = some v := by
  have hmem : ':' ∈ (pyLower s).data := mem_of_infixOf h hc
  have hmap : (pyLower s).data = s.data.map pyLowerChar := rfl
  rw [hmap, List.mem_map] at hmem
  obtain ⟨c, hcmem, hcl⟩ := hmem
  have : c = ':' := pyLowerChar_colon c hcl
  subst this
  obtain ⟨r, hr⟩ := afterColonAux_isSome s.data hcmem
  exact ⟨String.mk r, by simp [afterFirstColon, hr]⟩

/-! ## Stripping the section accumulator equals newline-joining

The parser accumulates `line + "\n"` for each content line and strips the
result at the end; the specification describes the value as the lines joined
by single newlines.  These lemmas prove the two descriptions agree for
accumulated lines that are themselves stripped and non-empty. -/

/-- Character-list version of `joinNlS`. -/
def joinNlL : List (List Char) → List Char
  | [] => []
  | x :: xs => x ++ '\n' :: joinNlL xs

/-- Character-list version of `joinSep "\n"`. -/
def interNlL : List (List Char) → List Char
  | [] => []
  | [x] => x
  | x :: xs => x ++ '\n' :: interNlL xs

theorem data_joinNlS (ls : List String) :
    (joinNlS ls).data = joinNlL (ls.map String.data) := by
  induction ls with
  | nil => rfl
  | cons x xs ih =>
    simp [joinNlS, joinNlL, ih, show ("\n" : String).data = ['\n'] from rfl,
      List.append_assoc]

theorem data_joinSepNl (ls : List String) :
    (joinSep "\n" ls).data = interNlL (ls.map String.data) := by
  induction ls with
  | nil => rfl
  | cons x xs ih =>
    cases xs with
    | nil => rfl
    | cons y ys =>
      simp [joinSep, interNlL, ih, show ("\n" : String).data = ['\n'] from rfl,
        List.append_assoc]

theorem clean_head (x : List Char) (hx : x ≠ []) (hc : dropWs x = x) :
    ∃ a t, x = a :: t ∧ isPyWs a = false := by
  rcases x with _ | ⟨a, t⟩
  · exact absurd rfl hx
  · refine ⟨a, t, rfl, ?_⟩
    by_cases h : isPyWs a
    · rw [dropWs, List.dropWhile_cons, if_pos h] at hc
      have hlen := congrArg List.length hc
      have hle := (List.dropWhile_sublist (l := t) isPyWs).length_le
      simp at hlen
      omega
    · simpa using h

theorem interNlL_ne_nil (x : List Char) (xs : List (List Char)) (hx : x ≠ []) :
    interNlL (x :: xs) ≠ [] := by
  cases xs with
  | nil => exact hx
  | cons y ys =>
    show x ++ '\n' :: interNlL (y :: ys) ≠ []
    simp

theorem dropWs_joinNlL (ls : List (List Char))
    (h : ∀ x ∈ ls, x ≠ [] ∧ dropWs x = x) :
    dropWs (joinNlL ls) = joinNlL ls := by
  cases ls with
  | nil => rfl
  | cons x xs =>
    obtain ⟨hne, hcl⟩ := h x (List.mem_cons_self x xs)
    obtain ⟨a, t, hx, ha⟩ := clean_head x hne hcl
    subst hx
    show dropWs ((a :: t) ++ '\n' :: joinNlL xs) = _
    rw [List.cons_append, dropWs, List.dropWhile_cons, if_neg (by simp [ha])]
    rfl

theorem dropWs_reverse_joinNlL (ls : List (List Char))
    (h : ∀ x ∈ ls, x ≠ [] ∧ dropWs x.reverse = x.reverse) :
    (dropWs ((joinNlL ls).reverse)).reverse = interNlL ls := by
  induction ls with
  | nil => rfl
  | cons x xs ih =>
    obtain ⟨hne, hcl⟩ := h x (List.mem_cons_self x xs)
    cases xs with
    | nil =>
      show (dropWs ((x ++ ['\n']).reverse)).reverse = interNlL [x]
      rw [List.reverse_append]
      show (dropWs ('\n' :: x.reverse)).reverse = x
      rw [dropWs, List.dropWhile_cons, if_pos (by decide)]
      rw [show List.dropWhile isPyWs x.reverse = dropWs x.reverse from rfl, hcl,
        List.reverse_reverse]
    | cons y ys =>
      have ihy := ih (fun z hz => h z (List.mem_cons_of_mem x hz))
      have hyne : (y : List Char) ≠ [] := (h y (by simp)).1
      have hAne : dropWs ((joinNlL (y :: ys)).reverse) ≠ [] := by
        intro h0
        rw [h0] at ihy
        exact interNlL_ne_nil y ys hyne ihy.symm
      show (dropWs ((x ++ '\n' :: joinNlL (y :: ys)).reverse)).reverse
        = interNlL (x :: y :: ys)
      rw [List.reverse_append, List.reverse_cons, List.append_assoc]
      show (dropWs ((joinNlL (y :: ys)).reverse ++ ('\n' :: x.reverse))).reverse = _
      have hcond : ¬ (List.dropWhile isPyWs ((joinNlL (y :: ys)).reverse)).isEmpty = true := by
        rw [List.isEmpty_iff]
        exact hAne
      rw [dropWs, List.dropWhile_append, if_neg hcond]
      rw [List.reverse_append, List.reverse_cons, List.reverse_reverse]
      rw [show List.dropWhile isPyWs ((joinNlL (y :: ys)).reverse)
            = dropWs ((joinNlL (y :: ys)).reverse) from rfl, ihy]
      show (x ++ ['\n']) ++ interNlL (y :: ys) = x ++ '\n' :: interNlL (y :: ys)
      rw [List.append_assoc]
      rfl

theorem stripL_joinNlL (ls : List (List Char))
    (h : ∀ x ∈ ls, x ≠ [] ∧ dropWs x = x ∧ dropWs x.reverse = x.reverse) :
    stripL (joinNlL ls) = interNlL ls := by
  rw [stripL, dropWs_joinNlL ls (fun z hz => ⟨(h z hz).1, (h z hz).2.1⟩)]
  exact dropWs_reverse_joinNlL ls (fun z hz => ⟨(h z hz).1, (h z hz).2.2⟩)

theorem pyStrip_joinNlS (ls : List String) (h : ∀ x ∈ ls, x ≠ "" ∧ pyStrip x = x) :
    pyStrip (joinNlS ls) = joinSep "\n" ls := by
  apply String.ext
  rw [pyStrip_data, data_joinNlS, data_joinSepNl]
  apply stripL_joinNlL
  intro z hz
  rw [List.mem_map] at hz
  obtain ⟨w, hw, rfl⟩ := hz
  obtain ⟨hne, hcl⟩ := h w hw
  have hdata : stripL w.data = w.data := (pyStrip_eq_self_iff w).mp hcl
  refine ⟨fun h0 => hne (String.ext h0), ?_, ?_⟩
  · rw [← hdata]
    exact dropWs_stripL w.data
  · rw [← hdata]
    exact dropWs_reverse_stripL w.data

theorem joinNlS_append (a b : List String) :
    joinNlS (a ++ b) = joinNlS a ++ joinNlS b := by
  induction a with
  | nil => simp [joinNlS]
  | cons x xs ih => simp [joinNlS, ih, String.append_assoc]

/-! ## `sep.join` agrees with the separator-interleaved description -/

theorem foldl_sep_shift (sep : String) (xs : List String) : ∀ a b : String,
    xs.foldl (fun acc y => acc ++ sep ++ y) (a ++ b)
      = a ++ xs.foldl (fun acc y => acc ++ sep ++ y) b := by
  induction xs with
  | nil => intro a b; rfl
  | cons z zs ih =>
    intro a b
    show zs.foldl _ ((a ++ b) ++ sep ++ z) = a ++ zs.foldl _ ((b ++ sep) ++ z)
    rw [String.append_assoc (a ++ b), String.append_assoc a,
      ← String.append_assoc b]
    exact ih a ((b ++ sep) ++ z)

theorem pyJoin_cons_eq (sep : String) : ∀ (xs : List String) (x : String),
    pyJoin sep (x :: xs) = joinSep sep (x :: xs) := by
  intro xs
  induction xs with
  | nil => intro x; rfl
  | cons y ys ih =>
    intro x
    have h1 : pyJoin sep (x :: y :: ys) = (x ++ sep) ++ pyJoin sep (y :: ys) := by
      show (y :: ys).foldl _ x = _
      rw [List.foldl_cons]
      exact foldl_sep_shift sep ys (x ++ sep) y
    rw [h1, ih y]
    rfl

theorem pyJoin_eq_joinSep (sep : String) (ls : List String) :
    pyJoin sep ls = joinSep sep ls := by
  cases ls with
  | nil => rfl
  | cons x xs => exact pyJoin_cons_eq sep xs x

/-! ## `extract_text` page-loop lemmas -/

/-- Whether some page in the list raises. -/
def hasErr : List PageEv → Bool
  | [] => false
  | PageEv.err :: _ => true
  | _ :: rest => hasErr rest

theorem runPages_fst (pages : List PageEv) : ∀ acc : String,
    (runPages pages acc).1 = acc ++ pagesPrefix pages := by
  induction pages with
  | nil => intro acc; simp [runPages, pagesPrefix]
  | cons p rest ih =>
    intro acc
    cases p with
    | text s =>
      show (runPages rest (acc ++ s ++ "\n")).1 = _
      rw [ih]
      simp [pagesPrefix, String.append_assoc]
    | none =>
      show (runPages rest (acc ++ "" ++ "\n")).1 = _
      rw [ih]
      simp [pagesPrefix, String.append_assoc]
    | err => simp [runPages, pagesPrefix]

theorem runPages_snd (pages : List PageEv) : ∀ acc : String,
    (runPages pages acc).2 = hasErr pages := by
  induction pages with
  | nil => intro acc; rfl
  | cons p rest ih =>
    intro acc
    cases p with
    | text s => exact ih (acc ++ s ++ "\n")
    | none => exact ih (acc ++ "" ++ "\n")
    | err => rfl

/-! ## Characterization of one parser step -/

theorem idNames_sub_fieldNames : ∀ n ∈ idNames, n ∈ fieldNames := by decide

theorem secNames_sub_fieldNames : ∀ t ∈ secNames, t ∈ fieldNames := by decide

theorem sec_ne_id : ∀ t ∈ secNames, ∀ n ∈ idNames, t ≠ n := by decide

theorem parseStep_id_case (l : String) (data : Dict) (key : Option String)
    (name v : String)
    (hkeys : data.map Prod.fst = fieldNames)
    (hname : name ∈ idNames)
    (hstep : parseStep l data key = some (dictSet data name (pyStrip v), key))
    (hmatch : firstIdMatch (pyLower (pyStrip l)) = some name)
    (hval : afterFirstColon (pyStrip l) = some v)
    (hblank : ¬ pyStrip l = "") :
    ∃ d, parseStep l data key = some (d, specKeyAfter l key)
      ∧ d.map Prod.fst = fieldNames
      ∧ (∀ t, t ∈ secNames → ∀ w, dictGet data t = some w →
          dictGet d t = some (w ++ joinNlS (specContribs t l key)))
      ∧ (∀ n, n ∈ idNames →
          dictGet d n = if firstIdMatch (pyLower (pyStrip l)) = some n
            then some (specIdVal l) else dictGet data n) := by
  have hkeyaf : specKeyAfter l key = key := by
    simp only [specKeyAfter]
    rw [if_neg hblank, hmatch]
    simp
  refine ⟨dictSet data name (pyStrip v), ?_, ?_, ?_, ?_⟩
  · rw [hstep, hkeyaf]
  · rw [keys_dictSet data name (pyStrip v)
      (by rw [hkeys]; exact idNames_sub_fieldNames name hname)]
    exact hkeys
  · intro t ht w hw
    have hne : t ≠ name := sec_ne_id t ht name hname
    have hcontrib : specContribs t l key = [] := by
      simp only [specContribs]
      rw [if_neg hblank, hmatch]
      simp
    rw [dictGet_dictSet_ne data name t (pyStrip v) hne, hw, hcontrib]
    show some w = some (w ++ "")
    rw [String.append_empty]
  · intro n hn
    by_cases heq : n = name
    · subst heq
      have hid : specIdVal l = pyStrip v := by
        simp only [specIdVal]
        rw [hval]
      rw [if_pos hmatch, dictGet_dictSet_self, hid]
    · have hcond : ¬ firstIdMatch (pyLower (pyStrip l)) = some n := by
        rw [hmatch]
        intro hcon
        exact heq (Option.some.inj hcon).symm
      rw [if_neg hcond, dictGet_dictSet_ne data name n (pyStrip v) heq]

theorem parseStep_sec_case (l : String) (data : Dict) (key : Option String)
    (name : String)
    (hkeys : data.map Prod.fst = fieldNames)
    (hstep : parseStep l data key = some (data, some name))
    (hid : firstIdMatch (pyLower (pyStrip l)) = none)
    (hsec : firstSecMatch (pyLower (pyStrip l)) = some name)
    (hblank : ¬ pyStrip l = "") :
    ∃ d, parseStep l data key = some (d, specKeyAfter l key)
      ∧ d.map Prod.fst = fieldNames
      ∧ (∀ t, t ∈ secNames → ∀ w, dictGet data t = some w →
          dictGet d t = some (w ++ joinNlS (specContribs t l key)))
      ∧ (∀ n, n ∈ idNames →
          dictGet d n = if firstIdMatch (pyLower (pyStrip l)) = some n
            then some (specIdVal l) else dictGet data n) := by
  have hkeyaf : specKeyAfter l key = some name := by
    simp only [specKeyAfter]
    rw [if_neg hblank, hid, hsec]
    simp
  refine ⟨data, ?_, hkeys, ?_, ?_⟩
  · rw [hstep, hkeyaf]
  · intro t ht w hw
    have hcontrib : specContribs t l key = [] := by
      simp only [specContribs]
      rw [if_neg hblank, hid, hsec]
      simp
    rw [hw, hcontrib]
    show some w = some (w ++ "")
    rw [String.append_empty]
  · intro n hn
    rw [hid]
    simp

theorem parseStep_content_case (l : String) (data : Dict) (key : Option String)
    (k cur : String)
    (hkeys : data.map Prod.fst = fieldNames)
    (hksec : k ∈ secNames)
    (hkey : key = some k)
    (hcur : dictGet data k = some cur)
    (hstep : parseStep l data key
      = some (dictSet data k ((cur ++ pyStrip l) ++ "\n"), key))
    (hid : firstIdMatch (pyLower (pyStrip l)) = none)
    (hsec : firstSecMatch (pyLower (pyStrip l)) = none)
    (hblank : ¬ pyStrip l = "") :
    ∃ d, parseStep l data key = some (d, specKeyAfter l key)
      ∧ d.map Prod.fst = fieldNames
      ∧ (∀ t, t ∈ secNames → ∀ w, dictGet data t = some w →
          dictGet d t = some (w ++ joinNlS (specContribs t l key)))
      ∧ (∀ n, n ∈ idNames →
          dictGet d n = if firstIdMatch (pyLower (pyStrip l)) = some n
            then some (specIdVal l) else dictGet data n) := by
  have hkeyaf : specKeyAfter l key = key := by
    simp only [specKeyAfter]
    rw [if_neg hblank, hid, hsec]
    simp
  refine ⟨dictSet data k ((cur ++ pyStrip l) ++ "\n"), ?_, ?_, ?_, ?_⟩
  · rw [hstep, hkeyaf]
  · rw [keys_dictSet data k _ (by rw [hkeys]; exact secNames_sub_fieldNames k hksec)]
    exact hkeys
  · intro t ht w hw
    by_cases htk : t = k
    · subst htk
      have hwc : cur = w := Option.some.inj (hcur.symm.trans hw)
      subst hwc
      have hcontrib : specContribs t l key = [pyStrip l] := by
        simp only [specContribs]
        rw [if_neg hblank, hid, hsec, hkey]
        simp
      rw [dictGet_dictSet_self, hcontrib]
      show some ((cur ++ pyStrip l) ++ "\n") = some (cur ++ ((pyStrip l ++ "\n") ++ ""))
      rw [String.append_empty, String.append_assoc]
    · have hcontrib : specContribs t l key = [] := by
        simp only [specContribs]
        rw [if_neg hblank, hid, hsec, hkey]
        rw [if_neg (fun hh : some k = some t => htk (Option.some.inj hh).symm)]
        simp
      rw [dictGet_dictSet_ne data k t _ htk, hw, hcontrib]
      show some w = some (w ++ "")
      rw [String.append_empty]
  · intro n hn
    have hnk : n ≠ k := fun hh => (sec_ne_id k hksec n hn) hh.symm
    rw [hid, if_neg (show ¬ (Option.none : Option String) = some n by simp)]
    exact dictGet_dictSet_ne data k n _ hnk

theorem parseStep_total (l : String) (data : Dict) (key : Option String)
    (hkeys : data.map Prod.fst = fieldNames)
    (hkey : ∀ k, key = some k → k ∈ secNames) :
    ∃ d, parseStep l data key = some (d, specKeyAfter l key)
      ∧ d.map Prod.fst = fieldNames
      ∧ (∀ t, t ∈ secNames → ∀ w, dictGet data t = some w →
          dictGet d t = some (w ++ joinNlS (specContribs t l key)))
      ∧ (∀ n, n ∈ idNames →
          dictGet d n = if firstIdMatch (pyLower (pyStrip l)) = some n
            then some (specIdVal l) else dictGet data n) := by
  by_cases hb : pyStrip l = ""
  · refine ⟨data, ?_, hkeys, ?_, ?_⟩
    · simp only [parseStep]
      rw [if_pos hb]
      have hkeyaf : specKeyAfter l key = key := by
        simp only [specKeyAfter]
        rw [if_pos hb]
      rw [hkeyaf]
    · intro t ht w hw
      have hcontrib : specContribs t l key = [] := by
        simp only [specContribs]
        rw [if_pos hb]
      rw [hw, hcontrib]
      show some w = some (w ++ "")
      rw [String.append_empty]
    · intro n hn
      have hid : firstIdMatch (pyLower (pyStrip l)) = none := by
        rw [hb]
        decide
      rw [hid]
      simp
  · by_cases c1 : strContains (pyLower (pyStrip l)) "full name:" = true
    · obtain ⟨v, hv⟩ := afterFirstColon_of_contains (pyStrip l) "full name:" c1 (by decide)
      refine parseStep_id_case l data key "Full Name" v hkeys (by decide) ?_ ?_ hv hb
      · simp only [parseStep]
        rw [if_neg hb, if_pos c1, hv]
        rfl
      · simp only [firstIdMatch]
        rw [if_pos c1]
    · by_cases c2 : strContains (pyLower (pyStrip l)) "professional title:" = true
      · obtain ⟨v, hv⟩ :=
          afterFirstColon_of_contains (pyStrip l) "professional title:" c2 (by decide)
        refine parseStep_id_case l data key "Professional Title" v hkeys (by decide) ?_ ?_ hv hb
        · simp only [parseStep]
          rw [if_neg hb, if_neg c1, if_pos c2, hv]
          rfl
        · simp only [firstIdMatch]
          rw [if_neg c1, if_pos c2]
      · by_cases c3 : strContains (pyLower (pyStrip l)) "email:" = true
        · obtain ⟨v, hv⟩ := afterFirstColon_of_contains (pyStrip l) "email:" c3 (by decide)
          refine parseStep_id_case l data key "Email" v hkeys (by decide) ?_ ?_ hv hb
          · simp only [parseStep]
            rw [if_neg hb, if_neg c1, if_neg c2, if_pos c3, hv]
            rfl
          · simp only [firstIdMatch]
            rw [if_neg c1, if_neg c2, if_pos c3]
        · by_cases c4 : strContains (pyLower (pyStrip l)) "phone:" = true
          · obtain ⟨v, hv⟩ := afterFirstColon_of_contains (pyStrip l) "phone:" c4 (by decide)
            refine parseStep_id_case l data key "Phone" v hkeys (by decide) ?_ ?_ hv hb
            · simp only [parseStep]
              rw [if_neg hb, if_neg c1, if_neg c2, if_neg c3, if_pos c4, hv]
              rfl
            · simp only [firstIdMatch]
              rw [if_neg c1, if_neg c2, if_neg c3, if_pos c4]
          · by_cases c5 : strContains (pyLower (pyStrip l)) "location:" = true
            · obtain ⟨v, hv⟩ :=
                afterFirstColon_of_contains (pyStrip l) "location:" c5 (by decide)
              refine parseStep_id_case l data key "Location" v hkeys (by decide) ?_ ?_ hv hb
              · simp only [parseStep]
                rw [if_neg hb, if_neg c1, if_neg c2, if_neg c3, if_neg c4, if_pos c5, hv]
                rfl
              · simp only [firstIdMatch]
                rw [if_neg c1, if_neg c2, if_neg c3, if_neg c4, if_pos c5]
            · have hid : firstIdMatch (pyLower (pyStrip l)) = none := by
                simp only [firstIdMatch]
                rw [if_neg c1, if_neg c2, if_neg c3, if_neg c4, if_neg c5]
              by_cases c6 : strContains (pyLower (pyStrip l)) "profile summary:" = true
              · refine parseStep_sec_case l data key "Profile Summary" hkeys ?_ hid ?_ hb
                · simp only [parseStep]
                  rw [if_neg hb, if_neg c1, if_neg c2, if_neg c3, if_neg c4, if_neg c5,
                    if_pos c6]
                · simp only [firstSecMatch]
                  rw [if_pos c6]
              · by_cases c7 : strContains (pyLower (pyStrip l)) "professional experience:" = true
                · refine parseStep_sec_case l data key "Professional Experience" hkeys ?_ hid ?_ hb
                  · simp only [parseStep]
                    rw [if_neg hb, if_neg c1, if_neg c2, if_neg c3, if_neg c4, if_neg c5,
                      if_neg c6, if_pos c7]
                  · simp only [firstSecMatch]
                    rw [if_neg c6, if_pos c7]
                · by_cases c8 : strContains (pyLower (pyStrip l)) "project experience:" = true
                  · refine parseStep_sec_case l data key "Project Experience" hkeys ?_ hid ?_ hb
                    · simp only [parseStep]
                      rw [if_neg hb, if_neg c1, if_neg c2, if_neg c3, if_neg c4, if_neg c5,
                        if_neg c6, if_neg c7, if_pos c8]
                    · simp only [firstSecMatch]
                      rw [if_neg c6, if_neg c7, if_pos c8]
                  · by_cases c9 : strContains (pyLower (pyStrip l)) "technical skills:" = true
                    · refine parseStep_sec_case l data key "Technical Skills" hkeys ?_ hid ?_ hb
                      · simp only [parseStep]
                        rw [if_neg hb, if_neg c1, if_neg c2, if_neg c3, if_neg c4, if_neg c5,
                          if_neg c6, if_neg c7, if_neg c8, if_pos c9]
                      · simp only [firstSecMatch]
                        rw [if_neg c6, if_neg c7, if_neg c8, if_pos c9]
                    · by_cases c10 : strContains (pyLower (pyStrip l)) "soft skills:" = true
                      · refine parseStep_sec_case l data key "Soft Skills" hkeys ?_ hid ?_ hb
                        · simp only [parseStep]
                          rw [if_neg hb, if_neg c1, if_neg c2, if_neg c3, if_neg c4, if_neg c5,
                            if_neg c6, if_neg c7, if_neg c8, if_neg c9, if_pos c10]
                        · simp only [firstSecMatch]
                          rw [if_neg c6, if_neg c7, if_neg c8, if_neg c9, if_pos c10]
                      · have hsec : firstSecMatch (pyLower (pyStrip l)) = none := by
                          simp only [firstSecMatch]
                          rw [if_neg c6, if_neg c7, if_neg c8, if_neg c9, if_neg c10]
                        cases key with
                        | none =>
                          have hkeyaf : specKeyAfter l Option.none = (Option.none : Option String) := by
                            simp only [specKeyAfter]
                            rw [if_neg hb, hid, hsec]
                            simp
                          refine ⟨data, ?_, hkeys, ?_, ?_⟩
                          · simp only [parseStep]
                            rw [if_neg hb, if_neg c1, if_neg c2, if_neg c3, if_neg c4,
                              if_neg c5, if_neg c6, if_neg c7, if_neg c8, if_neg c9,
                              if_neg c10, hkeyaf]
                          · intro t ht w hw
                            have hcontrib : specContribs t l Option.none = [] := by
                              simp only [specContribs]
                              rw [if_neg hb, hid, hsec]
                              simp
                            rw [hw, hcontrib]
                            show some w = some (w ++ "")
                            rw [String.append_empty]
                          · intro n hn
                            rw [hid]
                            simp
                        | some k =>
                          have hksec : k ∈ secNames := hkey k rfl
                          obtain ⟨cur, hcur⟩ := dictGet_isSome data k
                            (by rw [hkeys]; exact secNames_sub_fieldNames k hksec)
                          refine parseStep_content_case l data (some k) k cur hkeys hksec rfl
                            hcur ?_ hid hsec hb
                          simp only [parseStep]
                          rw [if_neg hb, if_neg c1, if_neg c2, if_neg c3, if_neg c4,
                            if_neg c5, if_neg c6, if_neg c7, if_neg c8, if_neg c9,
                            if_neg c10, hcur]
                          rfl

theorem firstSecMatch_mem (ll k : String) (h : firstSecMatch ll = some k) :
    k ∈ secNames := by
  unfold firstSecMatch at h
  repeat' split at h
  all_goals (cases h)
  all_goals decide

theorem specKeyAfter_mem (l : String) (key : Option String)
    (hkey : ∀ k, key = some k → k ∈ secNames) :
    ∀ k, specKeyAfter l key = some k → k ∈ secNames := by
  intro k h
  simp only [specKeyAfter] at h
  split at h
  · exact hkey k h
  · split at h
    · exact hkey k h
    · rcases hm : firstSecMatch (pyLower (pyStrip l)) with _ | k'
      · rw [hm] at h
        exact hkey k h
      · rw [hm] at h
        simp only [] at h
        exact (Option.some.inj h) ▸ firstSecMatch_mem _ k' hm

theorem parseLines_spec : ∀ (lines : List String) (data : Dict) (key : Option String),
    data.map Prod.fst = fieldNames →
    (∀ k, key = some k → k ∈ secNames) →
    ∃ d, parseLines lines data key = some d
      ∧ d.map Prod.fst = fieldNames
      ∧ (∀ t, t ∈ secNames → ∀ w, dictGet data t = some w →
          dictGet d t = some (w ++ joinNlS (specCollect t lines key)))
      ∧ (∀ n, n ∈ idNames →
          dictGet d n = match specLastId n lines with
            | some w => some w
            | none => dictGet data n) := by
  intro lines
  induction lines with
  | nil =>
    intro data key hkeys hkey
    refine ⟨data, rfl, hkeys, ?_, ?_⟩
    · intro t ht w hw
      rw [hw]
      show some w = some (w ++ joinNlS [])
      rw [show joinNlS [] = "" from rfl, String.append_empty]
    · intro n hn
      rfl
  | cons l ls ih =>
    intro data key hkeys hkey
    obtain ⟨d1, hstep, hk1, hsec1, hid1⟩ := parseStep_total l data key hkeys hkey
    have hkey1 : ∀ k, specKeyAfter l key = some k → k ∈ secNames :=
      specKeyAfter_mem l key hkey
    obtain ⟨d, hrun, hkd, hsecd, hidd⟩ := ih d1 (specKeyAfter l key) hk1 hkey1
    refine ⟨d, ?_, hkd, ?_, ?_⟩
    · show parseLines (l :: ls) data key = some d
      simp only [parseLines]
      rw [hstep]
      exact hrun
    · intro t ht w hw
      have h1 := hsec1 t ht w hw
      have h2 := hsecd t ht _ h1
      rw [h2]
      show some ((w ++ joinNlS (specContribs t l key))
          ++ joinNlS (specCollect t ls (specKeyAfter l key)))
        = some (w ++ joinNlS (specCollect t (l :: ls) key))
      rw [show specCollect t (l :: ls) key
            = specContribs t l key ++ specCollect t ls (specKeyAfter l key) from rfl]
      rw [joinNlS_append, String.append_assoc]
    · intro n hn
      have h2 := hidd n hn
      rw [h2]
      simp only [specLastId]
      rcases hlast : specLastId n ls with _ | w
      · rw [hid1 n hn]
        by_cases hm : firstIdMatch (pyLower (pyStrip l)) = some n
        · rw [if_pos hm, if_pos hm]
        · rw [if_neg hm, if_neg hm]
      · rfl

theorem initData_keys : initData.map Prod.fst = fieldNames := rfl

theorem initData_sec : ∀ t ∈ secNames, dictGet initData t = some "" := by decide

theorem initData_id : ∀ n ∈ idNames, dictGet initData n = some "" := by decide

theorem specCollect_clean (t : String) : ∀ (lines : List String) (key : Option String),
    ∀ x ∈ specCollect t lines key, x ≠ "" ∧ pyStrip x = x := by
  intro lines
  induction lines with
  | nil =>
    intro key x hx
    cases hx
  | cons l ls ih =>
    intro key x hx
    rw [show specCollect t (l :: ls) key
          = specContribs t l key ++ specCollect t ls (specKeyAfter l key) from rfl,
      List.mem_append] at hx
    rcases hx with hx | hx
    · simp only [specContribs] at hx
      split at hx
      · cases hx
      · split at hx
        · cases hx
        · split at hx
          · cases hx
          · split at hx
            · rw [List.mem_singleton] at hx
              subst hx
              refine ⟨?_, pyStrip_pyStrip l⟩
              assumption
            · cases hx
    · exact ih (specKeyAfter l key) x hx

theorem specIdVal_clean (l : String) : pyStrip (specIdVal l) = specIdVal l := by
  simp only [specIdVal]
  rcases hc : afterFirstColon (pyStrip l) with _ | v
  · rfl
  · exact pyStrip_pyStrip v

theorem specLastId_clean (n : String) : ∀ (lines : List String) (w : String),
    specLastId n lines = some w → pyStrip w = w := by
  intro lines
  induction lines with
  | nil =>
    intro w h
    cases h
  | cons l ls ih =>
    intro w h
    simp only [specLastId] at h
    split at h
    · next w' heq => exact (Option.some.inj h) ▸ ih w' heq
    · next heq =>
      split at h
      · exact (Option.some.inj h) ▸ specIdVal_clean l
      · cases h

/-! ## Claim theorems -/

/-- C1: for every raw AI-reply text, `parse_ai_response` never raises and
returns a record whose key list is exactly the ten fixed field names, in
order, with no extra keys. -/
theorem c1_parser_total_fixed_keys (text : String) :
    ∃ d, parse_ai_response text = some d ∧ d.map Prod.fst = fieldNames := by
  obtain ⟨d, hrun, hkeys, -, -⟩ :=
    parseLines_spec (pySplitLines text) initData Option.none initData_keys
      (fun k h => Option.noConfusion h)
  refine ⟨d.map (fun p => (p.1, pyStrip p.2)), ?_, ?_⟩
  · rw [parse_ai_response, hrun]
    rfl
  · rw [List.map_map]
    exact hkeys

/-- C2: for every input text, each section field of the parsed record equals
the newline-join of the trimmed non-blank content lines collected while that
section was active, in source order. -/
theorem c2_section_accumulation (text : String) (t : String) (ht : t ∈ secNames) :
    ∃ d, parse_ai_response text = some d
      ∧ dictGet d t
          = some (joinSep "\n" (specCollect t (pySplitLines text) Option.none)) := by
  obtain ⟨d0, hrun, hkeys, hsec, -⟩ :=
    parseLines_spec (pySplitLines text) initData Option.none initData_keys
      (fun k h => Option.noConfusion h)
  have h1 := hsec t ht "" (initData_sec t ht)
  refine ⟨d0.map (fun p => (p.1, pyStrip p.2)), ?_, ?_⟩
  · rw [parse_ai_response, hrun]
    rfl
  · rw [dictGet_mapVal, h1, Option.map_some', String.empty_append,
      pyStrip_joinNlS _ (specCollect_clean t (pySplitLines text) Option.none)]

/-- C2 witness: the concrete reply from the claim gives ProfileSummary the
two content lines joined by a newline and TechnicalSkills the single line. -/
theorem c2_section_accumulation_witness :
    ∃ d, parse_ai_response
        "Full Name: John\nProfile Summary:\nLine one\nLine two\nTechnical Skills:\nPython"
        = some d
      ∧ dictGet d "Profile Summary" = some "Line one\nLine two"
      ∧ dictGet d "Technical Skills" = some "Python" := by
  obtain ⟨d, hd, hv⟩ := c2_section_accumulation
    "Full Name: John\nProfile Summary:\nLine one\nLine two\nTechnical Skills:\nPython"
    "Profile Summary" (by decide)
  obtain ⟨d2, hd2, hv2⟩ := c2_section_accumulation
    "Full Name: John\nProfile Summary:\nLine one\nLine two\nTechnical Skills:\nPython"
    "Technical Skills" (by decide)
  have hdd : d2 = d := Option.some.inj (hd2.symm.trans hd)
  subst hdd
  refine ⟨d2, hd, ?_, ?_⟩
  · rw [hv]
    decide
  · rw [hv2]
    decide

/-- C5 counterexample: the line `"Location: Email: x"` contains the
`"location:"` identity pattern, yet the Location field is left empty
(the earlier-checked `"email:"` pattern consumes the line), so the claim
as stated fails. -/
theorem c5_counterexample :
    strContains (pyLower (pyStrip "Location: Email: x")) "location:" = true
    ∧ afterFirstColon (pyStrip "Location: Email: x") = some " Email: x"
    ∧ pyStrip " Email: x" = "Email: x"
    ∧ (∃ d, parse_ai_response "Location: Email: x" = some d
        ∧ dictGet d "Location" = some "" ∧ dictGet d "Email" = some "Email: x")
    ∧ ("" : String) ≠ "Email: x" := by
  refine ⟨by decide, by decide, by decide,
    ⟨[("Full Name", ""), ("Professional Title", ""), ("Email", "Email: x"),
      ("Phone", ""), ("Location", ""),
      ("Profile Summary", ""), ("Professional Experience", ""),
      ("Project Experience", ""), ("Technical Skills", ""), ("Soft Skills", "")],
      by decide, by decide, by decide⟩, by decide⟩

/-- C5 amended: for every non-blank line, the identity field named by the
FIRST identity pattern (in check order) contained in the lowercased line is
set to the text after the line's first colon, trimmed; the colon lookup
cannot fail. -/
theorem c5_identity_first_match (l : String) (data : Dict) (key : Option String)
    (n : String) (hb : ¬ pyStrip l = "")
    (hm : firstIdMatch (pyLower (pyStrip l)) = some n) :
    ∃ v, afterFirstColon (pyStrip l) = some v
      ∧ parseStep l data key = some (dictSet data n (pyStrip v), key)
      ∧ dictGet (dictSet data n (pyStrip v)) n = some (pyStrip v) := by
  by_cases c1 : strContains (pyLower (pyStrip l)) "full name:" = true
  · have hn : n = "Full Name" := by
      simp only [firstIdMatch] at hm
      rw [if_pos c1] at hm
      exact (Option.some.inj hm).symm
    subst hn
    obtain ⟨v, hv⟩ := afterFirstColon_of_contains (pyStrip l) "full name:" c1 (by decide)
    refine ⟨v, hv, ?_, dictGet_dictSet_self data _ _⟩
    simp only [parseStep]
    rw [if_neg hb, if_pos c1, hv]
    rfl
  · by_cases c2 : strContains (pyLower (pyStrip l)) "professional title:" = true
    · have hn : n = "Professional Title" := by
        simp only [firstIdMatch] at hm
        rw [if_neg c1, if_pos c2] at hm
        exact (Option.some.inj hm).symm
      subst hn
      obtain ⟨v, hv⟩ :=
        afterFirstColon_of_contains (pyStrip l) "professional title:" c2 (by decide)
      refine ⟨v, hv, ?_, dictGet_dictSet_self data _ _⟩
      simp only [parseStep]
      rw [if_neg hb, if_neg c1, if_pos c2, hv]
      rfl
    · by_cases c3 : strContains (pyLower (pyStrip l)) "email:" = true
      · have hn : n = "Email" := by
          simp only [firstIdMatch] at hm
          rw [if_neg c1, if_neg c2, if_pos c3] at hm
          exact (Option.some.inj hm).symm
        subst hn
        obtain ⟨v, hv⟩ := afterFirstColon_of_contains (pyStrip l) "email:" c3 (by decide)
        refine ⟨v, hv, ?_, dictGet_dictSet_self data _ _⟩
        simp only [parseStep]
        rw [if_neg hb, if_neg c1, if_neg c2, if_pos c3, hv]
        rfl
      · by_cases c4 : strContains (pyLower (pyStrip l)) "phone:" = true
        · have hn : n = "Phone" := by
            simp only [firstIdMatch] at hm
            rw [if_neg c1, if_neg c2, if_neg c3, if_pos c4] at hm
            exact (Option.some.inj hm).symm
          subst hn
          obtain ⟨v, hv⟩ := afterFirstColon_of_contains (pyStrip l) "phone:" c4 (by decide)
          refine ⟨v, hv, ?_, dictGet_dictSet_self data _ _⟩
          simp only [parseStep]
          rw [if_neg hb, if_neg c1, if_neg c2, if_neg c3, if_pos c4, hv]
          rfl
        · by_cases c5 : strContains (pyLower (pyStrip l)) "location:" = true
          · have hn : n = "Location" := by
              simp only [firstIdMatch] at hm
              rw [if_neg c1, if_neg c2, if_neg c3, if_neg c4, if_pos c5] at hm
              exact (Option.some.inj hm).symm
            subst hn
            obtain ⟨v, hv⟩ :=
              afterFirstColon_of_contains (pyStrip l) "location:" c5 (by decide)
            refine ⟨v, hv, ?_, dictGet_dictSet_self data _ _⟩
            simp only [parseStep]
            rw [if_neg hb, if_neg c1, if_neg c2, if_neg c3, if_neg c4, if_pos c5, hv]
            rfl
          · exfalso
            simp only [firstIdMatch] at hm
            rw [if_neg c1, if_neg c2, if_neg c3, if_neg c4, if_neg c5] at hm
            cases hm

/-- C5 witness: `"Email: a@b.com extra"` sets Email to `"a@b.com extra"`,
everything after the first colon. -/
theorem c5_identity_first_match_witness :
    parseStep "Email: a@b.com extra" initData Option.none
      = some (dictSet initData "Email" "a@b.com extra", Option.none)
    ∧ dictGet (dictSet initData "Email" "a@b.com extra") "Email"
      = some "a@b.com extra" := by
  obtain ⟨v, hv, hstep, hget⟩ := c5_identity_first_match "Email: a@b.com extra"
    initData Option.none "Email" (by decide) (by decide)
  have hveq : v = " a@b.com extra" :=
    Option.some.inj (hv.symm.trans (by decide))
  subst hveq
  rw [show pyStrip " a@b.com extra" = "a@b.com extra" by decide] at hstep hget
  exact ⟨hstep, hget⟩

/-- C6 counterexample: a line containing both the `"project experience:"`
and `"technical skills:"` heading patterns (and no identity pattern) sets
the active section to Project Experience, not Technical Skills, so the
per-pattern claim fails. -/
theorem c6_counterexample :
    strContains (pyLower (pyStrip "Project Experience: see Technical Skills: x"))
        "technical skills:" = true
    ∧ firstIdMatch (pyLower (pyStrip "Project Experience: see Technical Skills: x"))
        = Option.none
    ∧ parseStep "Project Experience: see Technical Skills: x" initData Option.none
        = some (initData, some "Project Experience")
    ∧ (some "Project Experience" : Option String) ≠ some "Technical Skills" :=
  ⟨by decide, by decide, by decide, by decide⟩

/-- C6 amended: a non-blank line containing no identity pattern and
containing a heading pattern switches the active section to the FIRST
matching heading (in check order) and is consumed whole, leaving the
record unchanged. -/
theorem c6_heading_first_match (l : String) (data : Dict) (key : Option String)
    (k : String) (hb : ¬ pyStrip l = "")
    (hid : firstIdMatch (pyLower (pyStrip l)) = Option.none)
    (hm : firstSecMatch (pyLower (pyStrip l)) = some k) :
    parseStep l data key = some (data, some k) := by
  have c1 : ¬ strContains (pyLower (pyStrip l)) "full name:" = true := by
    intro hc
    simp only [firstIdMatch] at hid
    rw [if_pos hc] at hid
    cases hid
  have c2 : ¬ strContains (pyLower (pyStrip l)) "professional title:" = true := by
    intro hc
    simp only [firstIdMatch] at hid
    rw [if_pos hc] at hid
    split at hid <;> cases hid
  have c3 : ¬ strContains (pyLower (pyStrip l)) "email:" = true := by
    intro hc
    simp only [firstIdMatch] at hid
    rw [if_pos hc] at hid
    repeat' split at hid
    all_goals cases hid
  have c4 : ¬ strContains (pyLower (pyStrip l)) "phone:" = true := by
    intro hc
    simp only [firstIdMatch] at hid
    rw [if_pos hc] at hid
    repeat' split at hid
    all_goals cases hid
  have c5 : ¬ strContains (pyLower (pyStrip l)) "location:" = true := by
    intro hc
    simp only [firstIdMatch] at hid
    rw [if_pos hc] at hid
    repeat' split at hid
    all_goals cases hid
  by_cases c6 : strContains (pyLower (pyStrip l)) "profile summary:" = true
  · have hk : k = "Profile Summary" := by
      simp only [firstSecMatch] at hm
      rw [if_pos c6] at hm
      exact (Option.some.inj hm).symm
    subst hk
    simp only [parseStep]
    rw [if_neg hb, if_neg c1, if_neg c2, if_neg c3, if_neg c4, if_neg c5, if_pos c6]
  · by_cases c7 : strContains (pyLower (pyStrip l)) "professional experience:" = true
    · have hk : k = "Professional Experience" := by
        simp only [firstSecMatch] at hm
        rw [if_neg c6, if_pos c7] at hm
        exact (Option.some.inj hm).symm
      subst hk
      simp only [parseStep]
      rw [if_neg hb, if_neg c1, if_neg c2, if_neg c3, if_neg c4, if_neg c5, if_neg c6,
        if_pos c7]
    · by_cases c8 : strContains (pyLower (pyStrip l)) "project experience:" = true
      · have hk : k = "Project Experience" := by
          simp only [firstSecMatch] at hm
          rw [if_neg c6, if_neg c7, if_pos c8] at hm
          exact (Option.some.inj hm).symm
        subst hk
        simp only [parseStep]
        rw [if_neg hb, if_neg c1, if_neg c2, if_neg c3, if_neg c4, if_neg c5, if_neg c6,
          if_neg c7, if_pos c8]
      · by_cases c9 : strContains (pyLower (pyStrip l)) "technical skills:" = true
        · have hk : k = "Technical Skills" := by
            simp only [firstSecMatch] at hm
            rw [if_neg c6, if_neg c7, if_neg c8, if_pos c9] at hm
            exact (Option.some.inj hm).symm
          subst hk
          simp only [parseStep]
          rw [if_neg hb, if_neg c1, if_neg c2, if_neg c3, if_neg c4, if_neg c5, if_neg c6,
            if_neg c7, if_neg c8, if_pos c9]
        · by_cases c10 : strContains (pyLower (pyStrip l)) "soft skills:" = true
          · have hk : k = "Soft Skills" := by
              simp only [firstSecMatch] at hm
              rw [if_neg c6, if_neg c7, if_neg c8, if_neg c9, if_pos c10] at hm
              exact (Option.some.inj hm).symm
            subst hk
            simp only [parseStep]
            rw [if_neg hb, if_neg c1, if_neg c2, if_neg c3, if_neg c4, if_neg c5,
              if_neg c6, if_neg c7, if_neg c8, if_neg c9, if_pos c10]
          · exfalso
            simp only [firstSecMatch] at hm
            rw [if_neg c6, if_neg c7, if_neg c8, if_neg c9, if_neg c10] at hm
            cases hm

/-- C6 witness: a Profile Summary heading line switches the section and its
trailing content is discarded, the record staying unchanged. -/
theorem c6_heading_first_match_witness :
    parseStep "Profile Summary: overview text" initData Option.none
      = some (initData, some "Profile Summary") :=
  c6_heading_first_match "Profile Summary: overview text" initData Option.none
    "Profile Summary" (by decide) (by decide) (by decide)

/-- C9 counterexample: both lines contain the `"location:"` pattern; the
claim says the Location field ends as the last matching line's after-colon
value `"Email: b"`, but the parser resolves the second line to the Email
field and Location keeps `"a"`. -/
theorem c9_counterexample :
    strContains (pyLower (pyStrip "Location: Email: b")) "location:" = true
    ∧ (∃ d, parse_ai_response "Location: a\nLocation: Email: b" = some d
        ∧ dictGet d "Location" = some "a" ∧ dictGet d "Email" = some "Email: b")
    ∧ ("a" : String) ≠ "Email: b" := by
  refine ⟨by decide,
    ⟨[("Full Name", ""), ("Professional Title", ""), ("Email", "Email: b"),
      ("Phone", ""), ("Location", "a"),
      ("Profile Summary", ""), ("Professional Experience", ""),
      ("Project Experience", ""), ("Technical Skills", ""), ("Soft Skills", "")],
      by decide, by decide, by decide⟩, by decide⟩

/-- C9 amended: each identity field of the final record holds the value
from the LAST line that the parser resolves to that field (first matching
pattern in check order), later such lines overwriting earlier ones, and
the empty string when no line resolves to it. -/
theorem c9_last_setter_wins (text : String) (n : String) (hn : n ∈ idNames) :
    ∃ d, parse_ai_response text = some d
      ∧ dictGet d n = some (match specLastId n (pySplitLines text) with
          | some w => w
          | Option.none => "") := by
  obtain ⟨d0, hrun, hkeys, -, hid⟩ :=
    parseLines_spec (pySplitLines text) initData Option.none initData_keys
      (fun k h => Option.noConfusion h)
  have h1 := hid n hn
  refine ⟨d0.map (fun p => (p.1, pyStrip p.2)), ?_, ?_⟩
  · rw [parse_ai_response, hrun]
    rfl
  · rw [dictGet_mapVal, h1]
    rcases hlast : specLastId n (pySplitLines text) with _ | w
    · rw [initData_id n hn]
      rfl
    · show (some w).map pyStrip = some w
      rw [Option.map_some', specLastId_clean n (pySplitLines text) w hlast]

/-- C9 witness: with two Email lines the later one wins. -/
theorem c9_last_setter_wins_witness :
    ∃ d, parse_ai_response "Email: a\nEmail: b" = some d
      ∧ dictGet d "Email" = some "b" := by
  obtain ⟨d, hd, hv⟩ := c9_last_setter_wins "Email: a\nEmail: b" "Email" (by decide)
  refine ⟨d, hd, ?_⟩
  rw [hv]
  decide

/-- C3 counterexample: with Full Name `"John Smith"` and the non-empty
Professional Title `"Title:"` (nothing after the label), the rendered line
is `"JOHN SMITH"` alone, not the `"<NAME> – <TITLE>"` form the claim
requires for every non-empty title. -/
theorem c3_counterexample :
    (CandidateRecord.mk "John Smith" "Title:" "" "" "" "" "" "" "" "").professionalTitle ≠ ""
    ∧ (createResumeParas true
        (CandidateRecord.mk "John Smith" "Title:" "" "" "" "" "" "" "" ""))[1]?
        = some ⟨"JOHN SMITH", false⟩
    ∧ pyUpper (pyStrip (stripLabelPrefix "Title:")) = ""
    ∧ (some (⟨"JOHN SMITH", false⟩ : DocPara))
        ≠ some ⟨"JOHN SMITH" ++ " – " ++ pyUpper (pyStrip (stripLabelPrefix "Title:")), false⟩ :=
  ⟨by decide, by decide, by decide, by decide⟩

/-- C3 amended: the name/title paragraph (position 1, after the logo) reads
`"<NAME> – <TITLE>"` exactly when the title remainder — label prefix
stripped, trimmed, uppercased — is non-empty, and `"<NAME>"` alone when
that remainder is empty. -/
theorem c3_name_title_line (lf : Bool) (d : CandidateRecord) :
    (pyUpper (pyStrip (stripLabelPrefix d.professionalTitle)) ≠ "" →
      (createResumeParas lf d)[1]?
        = some ⟨pyUpper d.fullName ++ " – "
            ++ pyUpper (pyStrip (stripLabelPrefix d.professionalTitle)), false⟩)
    ∧ (pyUpper (pyStrip (stripLabelPrefix d.professionalTitle)) = "" →
      (createResumeParas lf d)[1]? = some ⟨pyUpper d.fullName, false⟩) := by
  constructor
  · intro h
    simp only [createResumeParas, List.cons_append, List.getElem?_cons_succ,
      List.getElem?_cons_zero, displayLine]
    rw [if_pos h]
  · intro h
    simp only [createResumeParas, List.cons_append, List.getElem?_cons_succ,
      List.getElem?_cons_zero, displayLine]
    rw [if_neg (fun hc : ¬ _ = "" => hc h)]

/-- C3 witness: Full Name "John Smith" and Professional Title
"Java Developer" render as `"JOHN SMITH – JAVA DEVELOPER"`. -/
theorem c3_name_title_line_witness :
    (createResumeParas true
      (CandidateRecord.mk "John Smith" "Java Developer" "" "" "" "" "" "" "" ""))[1]?
      = some ⟨"JOHN SMITH – JAVA DEVELOPER", false⟩ := by
  have h := (c3_name_title_line true
    (CandidateRecord.mk "John Smith" "Java Developer" "" "" "" "" "" "" "" "")).1 (by decide)
  rw [h]
  decide

/-- C4 counterexample: a PDF whose second page raises after the first page
yielded `"abc"` is an extraction failure, yet `extract_text` returns the
partial text `"abc"`, not the empty string the claim requires. -/
theorem c4_counterexample :
    extractionFails (Source.pdf [PageEv.text "abc", PageEv.err]) = true
    ∧ extract_text (Source.pdf [PageEv.text "abc", PageEv.err]) = "abc"
    ∧ ("abc" : String) ≠ "" :=
  ⟨by decide, by decide, by decide⟩

/-- C4 amended: `extract_text` never raises; on an open failure or an
unreadable word document it returns the empty string, and on a PDF it
returns the stripped concatenation of the page texts accumulated before
the first failing page (empty when the first page already fails). -/
theorem c4_extract_best_effort :
    (extract_text Source.pdfOpenFail = "" ∧ extract_text Source.docxFail = "")
    ∧ (∀ pages, extract_text (Source.pdf pages) = pyStrip (pagesPrefix pages))
    ∧ (∀ pages, extractionFails (Source.pdf pages) = hasErr pages) := by
  refine ⟨⟨rfl, rfl⟩, ?_, ?_⟩
  · intro pages
    show pyStrip (runPages pages "").1 = _
    rw [runPages_fst pages "", String.empty_append]
  · intro pages
    exact runPages_snd pages ""

/-- C4 witness: concrete instances of the amended statement. -/
theorem c4_extract_best_effort_witness :
    extract_text (Source.pdf [PageEv.err, PageEv.text "abc"])
      = pyStrip (pagesPrefix [PageEv.err, PageEv.text "abc"])
    ∧ pyStrip (pagesPrefix [PageEv.err, PageEv.text "abc"]) = ""
    ∧ extract_text Source.pdfOpenFail = "" :=
  ⟨c4_extract_best_effort.2.1 [PageEv.err, PageEv.text "abc"], by decide,
    c4_extract_best_effort.1.1⟩

/-- C7: the contact paragraph is omitted when Email, Phone and Location are
all empty; when the non-empty parts are exactly `[v]` it is `v` alone; and
whenever some part is non-empty the paragraph at position 2 is the
non-empty parts joined by `" | "` with no leading or trailing separator. -/
theorem c7_contact_line (lf : Bool) (d : CandidateRecord) :
    (d.email = "" ∧ d.phone = "" ∧ d.location = "" → contactParas d = [])
    ∧ (∀ v, contactParts d = [v] → contactParas d = [⟨v, false⟩])
    ∧ (contactParts d ≠ [] →
        (createResumeParas lf d)[2]?
          = some ⟨joinSep " | " (contactParts d), false⟩) := by
  refine ⟨?_, ?_, ?_⟩
  · rintro ⟨he, hp, hl⟩
    have hcp : contactParts d = [] := by
      simp [contactParts, he, hp, hl]
    simp only [contactParas]
    rw [hcp]
  · intro v hv
    simp only [contactParas]
    rw [hv]
    rfl
  · intro hne
    rcases hcp : contactParts d with _ | ⟨v, vs⟩
    · exact absurd hcp hne
    · have hcpar : contactParas d = [⟨pyJoin " | " (v :: vs), false⟩] := by
        simp only [contactParas]
        rw [hcp]
      simp only [createResumeParas, hcpar, pyJoin_eq_joinSep, List.cons_append,
        List.nil_append, List.singleton_append, List.append_assoc,
        List.getElem?_cons_succ, List.getElem?_cons_zero]

/-- C7 witness: all contact fields empty gives no contact paragraph; a
lone phone number appears alone with no separators. -/
theorem c7_contact_line_witness :
    contactParas (CandidateRecord.mk "" "" "" "" "" "" "" "" "" "") = []
    ∧ contactParas (CandidateRecord.mk "" "" "" "123" "" "" "" "" "" "")
        = [⟨"123", false⟩]
    ∧ (createResumeParas true (CandidateRecord.mk "" "" "" "123" "" "" "" "" "" ""))[2]?
        = some ⟨"123", false⟩ := by
  refine ⟨?_, ?_, ?_⟩
  · exact (c7_contact_line true _).1 ⟨rfl, rfl, rfl⟩
  · exact (c7_contact_line true _).2.1 "123" (by decide)
  · have h := (c7_contact_line true
      (CandidateRecord.mk "" "" "" "123" "" "" "" "" "" "")).2.2 (by decide)
    rw [h]
    decide

/-- C8: the conversion step of `create_resume` returns the original
document path unchanged when the PDF collaborator fails, and the path with
`.docx` replaced by `.pdf` when it succeeds. -/
theorem c8_pdf_fallback (o : ConvOutcome) (path : String) :
    (o = ConvOutcome.fail → createResumeArtifact o path = path)
    ∧ (o = ConvOutcome.ok → createResumeArtifact o path = pyReplace path ".docx" ".pdf") := by
  constructor
  · rintro rfl
    rfl
  · rintro rfl
    rfl

/-- C8 witness: concrete conversion outcomes on a concrete path. -/
theorem c8_pdf_fallback_witness :
    createResumeArtifact ConvOutcome.fail "Resume_X.docx" = "Resume_X.docx"
    ∧ createResumeArtifact ConvOutcome.ok "Resume_X.docx"
        = pyReplace "Resume_X.docx" ".docx" ".pdf"
    ∧ pyReplace "Resume_X.docx" ".docx" ".pdf" = "Resume_X.pdf" :=
  ⟨(c8_pdf_fallback ConvOutcome.fail "Resume_X.docx").1 rfl,
    (c8_pdf_fallback ConvOutcome.ok "Resume_X.docx").2 rfl, by decide⟩

/-- C10: the output filename stem is never empty, contains only ASCII
letters, digits and underscores, is at most 30 characters long, and is
`"Candidate"` when Full Name is empty. -/
theorem c10_safe_name (s : String) :
    safe_name s ≠ ""
    ∧ ((safe_name s).data.all (fun c => isAsciiAlnum c || c == '_')) = true
    ∧ (safe_name s).length ≤ 30
    ∧ (s = "" → safe_name s = "Candidate") := by
  refine ⟨?_, ?_, ?_, ?_⟩
  · simp only [safe_name]
    split
    · decide
    · next hemp =>
      intro h
      apply hemp
      rw [List.isEmpty_iff]
      exact congrArg String.data h
  · simp only [safe_name]
    split
    · decide
    · rw [List.all_eq_true]
      intro c hc
      have hc2 := List.take_subset 30 _ hc
      rw [List.mem_map] at hc2
      obtain ⟨a, ha, rfl⟩ := hc2
      by_cases hA : isAsciiAlnum a
      · simp [hA]
      · simp [hA]
  · simp only [safe_name]
    split
    · decide
    · show ((s.data.map (fun c => if isAsciiAlnum c then c else '_')).take 30).length ≤ 30
      rw [List.length_take]
      exact min_le_left 30 _
  · intro h
    subst h
    rfl

/-- C10 witness: the empty Full Name yields the non-empty stem
`"Candidate"`. -/
theorem c10_safe_name_witness :
    safe_name "" = "Candidate" ∧ safe_name "" ≠ "" := by
  have h := c10_safe_name ""
  exact ⟨h.2.2.2 rfl, h.1⟩

example : stripLabelPrefix "Title:   Java Developer" = "Java Developer" := by decide
example : stripLabelPrefix "Designation: QA" = "QA" := by decide
example : stripLabelPrefix "Professional Title/Designation: QA" = "QA" := by decide
example : stripLabelPrefix "Senior Title: QA" = "Senior Title: QA" := by decide
example : stripLabelPrefix "Title:" = "" := by decide
example :
    displayLine ⟨"John Smith", "Java Developer", "", "", "", "", "", "", "", ""⟩ =
      "JOHN SMITH – JAVA DEVELOPER" := by decide
example :
    displayLine ⟨"John Smith", "Title:", "", "", "", "", "", "", "", ""⟩ = "JOHN SMITH" := by
  decide
example : safe_name "John Smith" = "John_Smith" := by decide
example : safe_name "" = "Candidate" := by decide
example : safe_name "abcdefghijklmnopqrstuvwxyz0123456789" = "abcdefghijklmnopqrstuvwxyz0123" := by
  decide
example : extract_text (Source.pdf [PageEv.text "abc", PageEv.err]) = "abc" := by decide
example : extract_text (Source.pdf [PageEv.text "a", PageEv.none, PageEv.text "b"]) = "a\n\nb" := by
  decide
example : extract_text Source.pdfOpenFail = "" := by decide
example : createResumeArtifact ConvOutcome.ok "dir_out.docx" = "dir_out.pdf" := by decide
example : createResumeArtifact ConvOutcome.fail "dir_out.docx" = "dir_out.docx" := by decide
example :
    contactParas ⟨"", "", "a@b.c", "123", "", "", "", "", "", ""⟩ =
      [⟨"a@b.c | 123", false⟩] := by decide
example : contactParas ⟨"", "", "", "", "", "", "", "", "", ""⟩ = [] := by decide
example :
    specCollect "Profile Summary"
      ["Full Name: John", "Profile Summary:", "Line one", "Line two", "Technical Skills:", "Python"]
      Option.none = ["Line one", "Line two"] := by decide
example : specLastId "Email" ["Email: a", "Email: b"] = some "b" := by decide
example :
    parse_ai_response "Location: Email: x" =
      some [("Full Name", ""), ("Professional Title", ""), ("Email", "Email: x"),
        ("Phone", ""), ("Location", ""),
        ("Profile Summary", ""), ("Professional Experience", ""),
        ("Project Experience", ""), ("Technical Skills", ""), ("Soft Skills", "")] := by decide
example : pyStrip "  a b \n" = "a b" := by decide
example : pyLower "Full Name: X" = "full name: x" := by decide
example : strContains "abc full name: x" "full name:" = true := by decide
example : afterFirstColon "Email: a@b.com extra" = some " a@b.com extra" := by decide
example : pySplitLines "a\n\nb" = ["a", "", "b"] := by decide
example :
    parse_ai_response "Full Name: John\nProfile Summary:\nLine one\nLine two\nTechnical Skills:\nPython" =
      some [("Full Name", "John"), ("Professional Title", ""), ("Email", ""),
        ("Phone", ""), ("Location", ""),
        ("Profile Summary", "Line one\nLine two"), ("Professional Experience", ""),
        ("Project Experience", ""), ("Technical Skills", "Python"), ("Soft Skills", "")] := by
  decide
